import Mathlib

/-!
# Verification of the gorsync synchronization engine

Shallow embedding of the gorsync repository (block-diff engine, transfer
engine, wire protocol listener, peer client, sync orchestrator, atomic
publish) together with theorems settling the specification claims.

Sources embedded:
- `pkg/diff/diff.go` : `FileBlock`, `FindDifferentBlocks`
- `pkg/transfer/transfer.go` : `CopyFile` strategy selection, `copyFileDelta`
- `pkg/net/server.go` : `handleFileRequest` framing and byte counts
- `pkg/net/client.go` : `GetFile` verification and publish
- `pkg/sync/sync.go` : `syncRemoteFirst`, `isFileDifferent`, `findFile`
- `pkg/utils/tools.go` : `Saferename`
-/

namespace Gorsync

/-- `BlockSize` from `pkg/diff/diff.go` and `pkg/transfer/transfer.go`:
fixed block size of 1 MiB. -/
def BlockSize : Int := 1024 * 1024

/-- `MinParallelSize` from `pkg/transfer/transfer.go`: threshold (1 MiB)
above which parallel/delta transfer is used. -/
def MinParallelSize : Int := 1024 * 1024

/-! ## Block-diff engine (`pkg/diff/diff.go`) -/

/-- `FileBlock` from `pkg/diff/diff.go`: index, MD5 hash (hex string) and
size of one block of a file. -/
structure FileBlock where
  index : Int
  hash : String
  size : Int
deriving Repr, DecidableEq

/-- The Go map `destBlockMap` built by `FindDifferentBlocks`: inserting
each destination block in order, a later entry for the same index
overwrites an earlier one. -/
def destBlockMap (destBlocks : List FileBlock) : Int → Option String :=
  destBlocks.foldl (fun m b => fun i => if i = b.index then some b.hash else m i)
    (fun _ => none)

/-- `FindDifferentBlocks` from `pkg/diff/diff.go`: collect, in order, the
indices of source blocks that are absent from the destination map or whose
destination hash differs. -/
def FindDifferentBlocks (sourceBlocks destBlocks : List FileBlock) : List Int :=
  let m := destBlockMap destBlocks
  sourceBlocks.foldl
    (fun acc b =>
      match m b.index with
      | none => acc ++ [b.index]
      | some destHash => if destHash ≠ b.hash then acc ++ [b.index] else acc)
    []

/-- Whether a source block counts as differing against the destination
map, exactly the test of the loop in `FindDifferentBlocks`. -/
def blockDiffers (m : Int → Option String) (b : FileBlock) : Bool :=
  match m b.index with
  | none => true
  | some destHash => destHash ≠ b.hash

/-- Last-winner lookup on a block list: the model of the Go map after all
insertions, later entries taking precedence. -/
def lastHash : List FileBlock → Int → Option String
  | [], _ => none
  | b :: t, i =>
    match lastHash t i with
    | some h => some h
    | none => if i = b.index then some b.hash else none

/-! ## Transfer strategy selection (`pkg/transfer/transfer.go`, `CopyFile`) -/

/-- The three transfer strategies of the transfer engine. -/
inductive Strategy where
  | sequential
  | parallel
  | delta
deriving Repr, DecidableEq

/-- The strategy branch of `CopyFile` (transfer.go lines 150-167): delta
when the source is larger than `MinParallelSize` and the destination
exists, parallel when larger and the destination is absent, sequential
otherwise. -/
def chooseStrategy (srcSize : Int) (destExists : Bool) : Strategy :=
  if srcSize > MinParallelSize ∧ destExists then .delta
  else if srcSize > MinParallelSize then .parallel
  else .sequential

/-- The strategy actually executed: `copyFileDelta` (transfer.go line 198)
falls back to parallel when `CalculateFileBlocks` on the temporary file
fails (`tempBlocksOk = false`). -/
def effectiveStrategy (srcSize : Int) (destExists : Bool) (tempBlocksOk : Bool) :
    Strategy :=
  match chooseStrategy srcSize destExists with
  | .delta => if tempBlocksOk then .delta else .parallel
  | s => s

/-- The selection rule as the spec words it, for comparison: destination
absent or file at most `MinParallelSize` gives sequential is replaced by:
file at most the threshold gives sequential, otherwise split on the
destination. -/
def specStrategy (srcSize : Int) (destExists : Bool) (tempBlocksOk : Bool) :
    Strategy :=
  if srcSize ≤ MinParallelSize then .sequential
  else if destExists then (if tempBlocksOk then .delta else .parallel)
  else .parallel

/-! ## Sync orchestrator (`pkg/sync/sync.go`) -/

/-- `FileInfo` from `pkg/net/server.go`: one listing entry. `md5` is the
empty string when the hash is absent (directories, or hash failure). -/
structure FileInfo where
  path : String
  size : Int
  modTime : Int
  isDir : Bool
  mode : Int
  md5 : String
deriving Repr, DecidableEq

/-- `findFile` from `pkg/sync/sync.go`: first entry with the given
relative path, if any. -/
def findFile (files : List FileInfo) (path : String) : Option FileInfo :=
  files.find? (fun f => f.path = path)

/-- `isFileDifferent` from `pkg/sync/sync.go`: type, then size, then — only
when both hashes are present — the MD5 values. -/
def isFileDifferent (file1 file2 : FileInfo) : Bool :=
  if file1.isDir ≠ file2.isDir then true
  else if file1.size ≠ file2.size then true
  else if file1.md5 ≠ "" ∧ file2.md5 ≠ "" ∧ file1.md5 ≠ file2.md5 then true
  else false

/-- The download condition of `syncRemoteFirst` (sync.go line 121):
`localFile == nil || isFileDifferent(remoteFile, *localFile)`. -/
def needsDownload (localFiles : List FileInfo) (rf : FileInfo) : Bool :=
  match findFile localFiles rf.path with
  | none => true
  | some lf => isFileDifferent rf lf

/-- Errors `syncRemoteFirst` can return: a failed `os.MkdirAll` for a
remote directory, or a failed `client.DownloadFile` wrapped with the
running index (the underlying error is abstracted by the remote path it
concerns). -/
inductive SyncError where
  | mkdirFailed (path : String)
  | downloadFailed (index : Int) (path : String)
deriving Repr, DecidableEq

/-- Outcome of one `syncRemoteFirst` run. `downloaded` and `skipped` list
the file paths in processing order; `deleted` and `deleteFailures` come
from the deletion phase. -/
structure SyncResult where
  error : Option SyncError
  downloaded : List String
  skipped : List String
  deleted : List String
  deleteFailures : List String
deriving Repr, DecidableEq

/-- The first loop of `syncRemoteFirst` (sync.go lines 111-135) over the
remote entries, with the I/O outcomes supplied as oracles: `mkdirOk p`
is whether `os.MkdirAll` succeeds for directory `p`, `dlOk p` whether
`client.DownloadFile` succeeds for remote file `p`. The running `index`
starts at 1 and is bumped for file entries only. Returns the error (if
the loop aborted), the downloads performed, and the skipped paths. -/
def reconcileLoop (mkdirOk dlOk : String → Bool) (localFiles : List FileInfo) :
    List FileInfo → Int → Option SyncError × List String × List String
  | [], _ => (none, [], [])
  | rf :: rest, index =>
    if rf.isDir then
      if mkdirOk rf.path then
        reconcileLoop mkdirOk dlOk localFiles rest index
      else
        (some (.mkdirFailed rf.path), [], [])
    else
      if needsDownload localFiles rf then
        if dlOk rf.path then
          let r := reconcileLoop mkdirOk dlOk localFiles rest (index + 1)
          (r.1, rf.path :: r.2.1, r.2.2)
        else
          (some (.downloadFailed index rf.path), [], [])
      else
        let r := reconcileLoop mkdirOk dlOk localFiles rest (index + 1)
        (r.1, r.2.1, rf.path :: r.2.2)

/-- The deletion loop of `syncRemoteFirst` (sync.go lines 138-152): every
local entry with no remote counterpart that still exists (`statExists`)
is removed; a failed `os.RemoveAll` is only recorded. Returns the
deleted paths and the recorded failures. -/
def deleteLoop (statExists removeOk : String → Bool)
    (remoteFiles : List FileInfo) : List FileInfo → List String × List String
  | [] => ([], [])
  | lf :: rest =>
    match findFile remoteFiles lf.path with
    | some _ => deleteLoop statExists removeOk remoteFiles rest
    | none =>
      if statExists lf.path then
        if removeOk lf.path then
          let r := deleteLoop statExists removeOk remoteFiles rest
          (lf.path :: r.1, r.2)
        else
          let r := deleteLoop statExists removeOk remoteFiles rest
          (r.1, lf.path :: r.2)
      else
        deleteLoop statExists removeOk remoteFiles rest

/-- `syncRemoteFirst` from `pkg/sync/sync.go`: run the reconcile loop on
the remote entries; only when it finishes without error, run the deletion
loop, and in every case return nil for deletion problems (the Go function
ends in `return nil` after the deletion loop). -/
def syncRemoteFirst (mkdirOk dlOk statExists removeOk : String → Bool)
    (remoteFiles localFiles : List FileInfo) : SyncResult :=
  let r := reconcileLoop mkdirOk dlOk localFiles remoteFiles 1
  match r.1 with
  | some e =>
    { error := some e, downloaded := r.2.1, skipped := r.2.2,
      deleted := [], deleteFailures := [] }
  | none =>
    let d := deleteLoop statExists removeOk remoteFiles localFiles
    { error := none, downloaded := r.2.1, skipped := r.2.2,
      deleted := d.1, deleteFailures := d.2 }

/-- Whether one remote entry is processed without error by the reconcile
loop: directories need their `MkdirAll` to succeed, files needing a
download need `DownloadFile` to succeed, other files always pass. -/
def stepOk (mkdirOk dlOk : String → Bool) (localFiles : List FileInfo)
    (rf : FileInfo) : Bool :=
  if rf.isDir then mkdirOk rf.path
  else if needsDownload localFiles rf then dlOk rf.path else true

/-- Number of non-directory entries of a listing (the amount by which the
reconcile loop's index advances). -/
def fileCount (l : List FileInfo) : Int :=
  ((l.filter (fun f => !f.isDir)).length : Int)

/-- Modelled from the spec: the record a fresh download leaves behind for
the next local walk. `DownloadFile` itself is not part of the source tree
(only its call site in sync.go is); spec §4.4 specifies that a successful
download streams the declared size and verifies the whole-file hash
against the advertised `FileRecord` before publishing, so a re-walk of
the published file reports the advertised size, and the advertised hash
whenever one was advertised (`fallbackHash` stands for the hash of the
received bytes when none was advertised, and `newModTime` for the new
file's modification time). -/
def downloadedRecord (rf : FileInfo) (newModTime : Int)
    (fallbackHash : String) : FileInfo :=
  { path := rf.path, size := rf.size, modTime := newModTime, isDir := false,
    mode := rf.mode, md5 := if rf.md5 = "" then fallbackHash else rf.md5 }

/-- Modelled from the spec: the local record at one remote entry's path
after a successful remote-first pass — a directory record for remote
directories (`dirSize`/`dirModTime` stand for the walked metadata), the
downloaded record where a download was required, and the unchanged local
record where the entries already compared equal. -/
def passRecord (localBefore : List FileInfo) (newModTime : String → Int)
    (fallbackHash : String → String) (dirSize dirModTime : String → Int)
    (rf : FileInfo) : FileInfo :=
  if rf.isDir then
    { path := rf.path, size := dirSize rf.path, modTime := dirModTime rf.path,
      isDir := true, mode := rf.mode, md5 := "" }
  else
    match findFile localBefore rf.path with
    | none => downloadedRecord rf (newModTime rf.path) (fallbackHash rf.path)
    | some lf =>
      if isFileDifferent rf lf then
        downloadedRecord rf (newModTime rf.path) (fallbackHash rf.path)
      else lf

/-- Modelled from the spec: the whole local listing after a successful
remote-first pass — one record per remote entry (local-only entries were
deleted by the deletion phase). -/
def localAfterPass (remoteFiles localBefore : List FileInfo)
    (newModTime : String → Int) (fallbackHash : String → String)
    (dirSize dirModTime : String → Int) : List FileInfo :=
  remoteFiles.map (passRecord localBefore newModTime fallbackHash dirSize dirModTime)

/-! ## Transfer finalization (`pkg/transfer/transfer.go`, `CopyFile`) and
client download (`pkg/net/client.go`, `GetFile`) -/

/-- The possible results of `CopyFile`: success, the dedicated
"file content mismatch" error, or any other I/O error. -/
inductive CopyResult where
  | ok
  | contentMismatch
  | ioError
deriving Repr, DecidableEq

/-- What one `CopyFile`/`GetFile` call did: its result, and whether
`Saferename` was invoked on the destination (the only operation in either
function that touches the destination path; the deferred
`os.Remove(tempDest)` runs on every path, so the temp file never survives
an unpublished call). -/
structure TransferOutcome where
  result : CopyResult
  published : Bool
deriving Repr, DecidableEq

/-- The I/O outcomes of one `CopyFile` call (transfer.go lines 70-187), in
program order: `srcMD5` is `utils.CalculateMD5(source)` (`none` =
failure), `srcSize`/`tempSize` the stat results, `transferOk` the outcome
of the selected strategy call, `tempMD5` the `utils.CalculateMD5(tempDest)`
at finalization, `renameOk` the `utils.Saferename` outcome. -/
structure CopyEnv where
  srcMD5 : Option String
  openSrcOk : Bool
  statSrcOk : Bool
  srcSize : Int
  destExists : Bool
  openTempOk : Bool
  statTempOk : Bool
  tempSize : Int
  transferOk : Bool
  tempMD5 : Option String
  renameOk : Bool
deriving Repr, DecidableEq

/-- The finalization common to both exits of `CopyFile` (transfer.go lines
122-139 and 169-186): hash the temp file, compare with the source hash,
and only on equality rename the temp file onto the destination. -/
def copyFinalize (srcMD5 : String) (tempMD5 : Option String)
    (renameOk : Bool) : TransferOutcome :=
  match tempMD5 with
  | none => ⟨.ioError, false⟩
  | some h =>
    if srcMD5 ≠ h then ⟨.contentMismatch, false⟩
    else if renameOk then ⟨.ok, true⟩
    else ⟨.ioError, true⟩

/-- `CopyFile` from `pkg/transfer/transfer.go` over the I/O outcomes:
source hash, opens and stats, the already-complete shortcut
(`transferred >= srcInfo.Size()`), the strategy call, and the
finalization. -/
def CopyFile (e : CopyEnv) : TransferOutcome :=
  match e.srcMD5 with
  | none => ⟨.ioError, false⟩
  | some srcMD5 =>
    if ¬ e.openSrcOk then ⟨.ioError, false⟩
    else if ¬ e.statSrcOk then ⟨.ioError, false⟩
    else if ¬ e.openTempOk then ⟨.ioError, false⟩
    else if ¬ e.statTempOk then ⟨.ioError, false⟩
    else if e.tempSize ≥ e.srcSize then
      copyFinalize srcMD5 e.tempMD5 e.renameOk
    else if ¬ e.transferOk then ⟨.ioError, false⟩
    else copyFinalize srcMD5 e.tempMD5 e.renameOk

/-- The possible results of `GetFile`: success, the "file content
mismatch" error, a protocol-level failure (decode error, server `error`
status, missing file info), or any other I/O error. -/
inductive GetResult where
  | ok
  | contentMismatch
  | protocolError
  | ioError
deriving Repr, DecidableEq

/-- What one `GetFile` call did. -/
structure GetOutcome where
  result : GetResult
  published : Bool
deriving Repr, DecidableEq

/-- The I/O outcomes of one `GetFile` call (client.go lines 155-244):
connect, request encode, response decode, the response itself, directory
creation, temp open, the transfer call (`getFileParallel` or
`getFileSequential`, without their trailing hash check), the computed
temp-file hash (`none` = `calculateFileMD5` failure; the inner check of
the transfer helpers and the outer check of `GetFile` read the same
completed temp file, so one value models both), and the `saferename`
outcome. -/
structure GetEnv where
  connectOk : Bool
  sendOk : Bool
  decodeOk : Bool
  respStatus : String
  respFile : Option FileInfo
  mkdirOk : Bool
  openTempOk : Bool
  transferOk : Bool
  tempMD5 : Option String
  renameOk : Bool
deriving Repr, DecidableEq

/-- `GetFile` from `pkg/net/client.go`: request/response handling, temp
file setup, transfer, the hash verification of the transfer helper
(client.go lines 343-352 and 415-423, performed only when the advertised
`MD5` is nonempty) and of `GetFile` itself (line 233, comparison guarded
by `resp.File.MD5 != ""` but the hash computation unguarded), then
`saferename` onto the destination. -/
def GetFile (e : GetEnv) : GetOutcome :=
  if ¬ e.connectOk then ⟨.ioError, false⟩
  else if ¬ e.sendOk then ⟨.ioError, false⟩
  else if ¬ e.decodeOk then ⟨.protocolError, false⟩
  else if e.respStatus ≠ "ok" then ⟨.protocolError, false⟩
  else
    match e.respFile with
    | none => ⟨.protocolError, false⟩
    | some fi =>
      if ¬ e.mkdirOk then ⟨.ioError, false⟩
      else if ¬ e.openTempOk then ⟨.ioError, false⟩
      else if ¬ e.transferOk then ⟨.ioError, false⟩
      else if fi.md5 ≠ "" then
        match e.tempMD5 with
        | none => ⟨.ioError, false⟩
        | some h =>
          if fi.md5 ≠ h then ⟨.contentMismatch, false⟩
          else if e.renameOk then ⟨.ok, true⟩
          else ⟨.ioError, true⟩
      else
        match e.tempMD5 with
        | none => ⟨.ioError, false⟩
        | some _ =>
          if e.renameOk then ⟨.ok, true⟩
          else ⟨.ioError, true⟩

/-! ## File request handling (`pkg/net/server.go`, `handleFileRequest`) -/

/-- What the Listener puts on the wire for one `file` request: the status
of the single structured response message, how many literal newline
sentinel bytes follow it (server.go line 253; the message's own trailing
newline from `json.Encoder.Encode` is part of the message), and how many
raw payload bytes are streamed after that. -/
structure FileResponse where
  status : String
  sentinels : Int
  payload : Int
deriving Repr, DecidableEq

/-- JSON decoding of a `Request` whose `blockIndex` field is absent: the
field is `omitempty` on the wire, and decoding an absent field leaves the
Go zero value 0 — the server cannot distinguish "no block requested" from
"block 0 requested". -/
def decodedBlockIndex (present : Option Int) : Int := present.getD 0

/-- Closed form of the 64 KiB read/write loop of `handleFileRequest`
(server.go lines 282-321) on a successful stream: it stops when the
remaining count or the file is exhausted, whichever comes first, and
streams nothing when the computed size is not positive. -/
def streamLoopBytes (size transferOffset transferSize : Int) : Int :=
  max 0 (min transferSize (size - transferOffset))

/-- `handleFileRequest` from `pkg/net/server.go` over the I/O outcomes:
stat, directory check, open; then one ok message, one sentinel byte, and
the streamed range. The offset/size arithmetic is the code of lines
256-266: any request with `blockIndex >= 0` — including a request with no
block field at all, which decodes as 0 — is served the clipped block
range; the whole file from `offset` is served only for a negative block
index. The request's `blockSize` field is accepted but never read (the
server uses its own `BlockSize`). -/
def handleFileRequest (statOk : Bool) (isDir : Bool) (openOk : Bool)
    (size : Int) (offset blockIndex _blockSize : Int) : FileResponse :=
  if ¬ statOk then { status := "error", sentinels := 0, payload := 0 }
  else if isDir then { status := "error", sentinels := 0, payload := 0 }
  else if ¬ openOk then { status := "error", sentinels := 0, payload := 0 }
  else
    let transferOffset := if blockIndex ≥ 0 then blockIndex * BlockSize else offset
    let transferSize :=
      if blockIndex ≥ 0 then
        (if blockIndex * BlockSize + BlockSize > size
         then size - blockIndex * BlockSize
         else BlockSize)
      else size - offset
    { status := "ok", sentinels := 1,
      payload := streamLoopBytes size transferOffset transferSize }

/-! ## Delta transfer (`pkg/transfer/transfer.go`, `copyFileDelta`) -/

/-- What one `copyFileDelta` call does: fail outright when the source's
blocks cannot be computed, fall back to parallel transfer when the
temporary file's blocks cannot be computed (transfer.go lines 198-207),
or copy exactly the differing block indices. -/
inductive DeltaAction where
  | failed
  | parallelFallback
  | transferred (blocks : List Int)
deriving Repr, DecidableEq

/-- `copyFileDelta` from `pkg/transfer/transfer.go`: block hashes are
computed for the source path and for `tempDest` — the temporary file
itself, not the existing destination — and the blocks of
`FindDifferentBlocks(sourceBlocks, destBlocks-of-the-temp-file)` are
copied (an empty list means the early "no transfer needed" return). -/
def copyFileDelta (srcBlocksRes tempBlocksRes : Option (List FileBlock)) :
    DeltaAction :=
  match srcBlocksRes with
  | none => .failed
  | some sourceBlocks =>
    match tempBlocksRes with
    | none => .parallelFallback
    | some destBlocks => .transferred (FindDifferentBlocks sourceBlocks destBlocks)

/-- The temporary file's content at block granularity after the delta
copy: a copied block holds the source's bytes (hence the source's block
hash); an untouched block keeps what the temp file held. -/
def applyDelta (src temp : List FileBlock) (blocks : List Int) :
    Int → Option String :=
  fun i => if i ∈ blocks then lastHash src i else lastHash temp i

/-! ## Atomic publish (`pkg/utils/tools.go`, `Saferename`) -/

/-- The outcomes of the individual `os.Rename`/`os.Remove` calls a
`Saferename` run can make: the direct rename, the displacement of the
existing final file, the installation of the new file, the best-effort
revert, and the removal of the displaced original. -/
structure RenameEnv where
  direct : Bool
  displace : Bool
  install : Bool
  revert : Bool
  removeOk : Bool
deriving Repr, DecidableEq

/-- The outcome of one `Saferename` call: whether it returned nil, and the
resulting filesystem (paths to abstract content). -/
structure SafeRenameResult where
  ok : Bool
  fs : String → Option Nat

/-- The effect of a successful `os.Rename(o, n)` on the filesystem. -/
def applyRename (fs : String → Option Nat) (o n : String) :
    String → Option Nat :=
  fun p => if p = n then fs o else if p = o then none else fs p

/-- The fresh-name loop of `Saferename` (tools.go lines 81-88):
`MakeTempName` candidates (modelled by the generator `gen`) are drawn
until `os.Stat` fails, i.e. until the name is unused in the filesystem;
`fuel` bounds the search, which the Go loop does not. -/
def pickFresh (fs : String → Option Nat) (gen : Nat → String) :
    Nat → Nat → Option String
  | 0, _ => none
  | fuel + 1, k =>
    if (fs (gen k)).isSome then pickFresh fs gen fuel (k + 1)
    else some (gen k)

/-- `Saferename` from `pkg/utils/tools.go`: attempt the direct rename; on
failure pick a fresh temp name, rename the existing final file onto it,
rename the new file into place and delete the displaced original
(ignoring the removal's error); if the installation rename fails, restore
the displaced original ignoring errors and report the failure. -/
def Saferename (fs : String → Option Nat) (oldname newname : String)
    (env : RenameEnv) (gen : Nat → String) (fuel : Nat) : SafeRenameResult :=
  if env.direct then
    { ok := true, fs := applyRename fs oldname newname }
  else
    match pickFresh fs gen fuel 0 with
    | none => { ok := false, fs := fs }
    | some origtmp =>
      if env.displace then
        let fs1 := applyRename fs newname origtmp
        if env.install then
          let fs2 := applyRename fs1 oldname newname
          if env.removeOk then
            { ok := true, fs := fun p => if p = origtmp then none else fs2 p }
          else
            { ok := true, fs := fs2 }
        else
          if env.revert then
            { ok := false, fs := applyRename fs1 origtmp newname }
          else
            { ok := false, fs := fs1 }
      else
        { ok := false, fs := fs }

/-! ## Lemmas about the block-diff engine -/

theorem destBlockMap_eq_lastHash (l : List FileBlock) (i : Int) :
    destBlockMap l i = lastHash l i := by
  suffices h : ∀ (l : List FileBlock) (m : Int → Option String) (i : Int),
      (l.foldl (fun m b => fun i => if i = b.index then some b.hash else m i) m) i =
        match lastHash l i with
        | some h => some h
        | none => m i by
    have hx := h l (fun _ => none) i
    unfold destBlockMap
    rw [hx]
    cases lastHash l i <;> rfl
  intro l
  induction l with
  | nil => intro m i; simp [lastHash]
  | cons b t ih =>
    intro m i
    simp only [List.foldl_cons, lastHash]
    rw [ih]
    cases lastHash t i with
    | some h => simp
    | none =>
      by_cases hib : i = b.index <;> simp [hib]

theorem lastHash_some_mem {l : List FileBlock} {i : Int} {h : String}
    (hl : lastHash l i = some h) : ∃ b ∈ l, b.index = i ∧ b.hash = h := by
  induction l with
  | nil => simp [lastHash] at hl
  | cons b t ih =>
    simp only [lastHash] at hl
    split at hl
    · rename_i v hv
      cases hl
      obtain ⟨b', hb', hi', hh'⟩ := ih hv
      exact ⟨b', List.mem_cons_of_mem _ hb', hi', hh'⟩
    · by_cases hib : i = b.index
      · rw [if_pos hib] at hl
        cases hl
        exact ⟨b, List.mem_cons_self _ _, hib.symm, rfl⟩
      · rw [if_neg hib] at hl
        cases hl

theorem lastHash_none_iff (l : List FileBlock) (i : Int) :
    lastHash l i = none ↔ ∀ b ∈ l, b.index ≠ i := by
  induction l with
  | nil => simp [lastHash]
  | cons b t ih =>
    simp only [lastHash]
    cases h : lastHash t i with
    | some v =>
      simp only [reduceCtorEq, false_iff]
      intro hall
      obtain ⟨b', hb', hbi, -⟩ := lastHash_some_mem h
      exact hall b' (List.mem_cons_of_mem _ hb') hbi
    | none =>
      rw [h] at ih
      constructor
      · intro hif x hx
        rcases List.mem_cons.mp hx with rfl | hx'
        · intro hxi
          rw [if_pos hxi.symm] at hif
          exact absurd hif (by simp)
        · exact (ih.mp rfl) x hx'
      · intro hall
        rw [if_neg]
        intro hib
        exact hall b (List.mem_cons_self b t) hib.symm

theorem lastHash_of_mem {l : List FileBlock} {b : FileBlock}
    (hnd : (l.map (·.index)).Nodup) (hb : b ∈ l) :
    lastHash l b.index = some b.hash := by
  induction l with
  | nil => simp at hb
  | cons c t ih =>
    simp only [List.map_cons, List.nodup_cons] at hnd
    rcases List.mem_cons.mp hb with rfl | hbt
    · have hnone : lastHash t b.index = none := by
        rw [lastHash_none_iff]
        intro x hx hxi
        exact hnd.1 (hxi ▸ List.mem_map_of_mem (·.index) hx)
      simp [lastHash, hnone]
    · have hsome := ih hnd.2 hbt
      simp [lastHash, hsome]

theorem findDifferentBlocks_eq_filter (src dst : List FileBlock) :
    FindDifferentBlocks src dst =
      (src.filter (blockDiffers (destBlockMap dst))).map (·.index) := by
  suffices h : ∀ (l : List FileBlock) (m : Int → Option String) (acc : List Int),
      l.foldl
        (fun acc b =>
          match m b.index with
          | none => acc ++ [b.index]
          | some destHash => if destHash ≠ b.hash then acc ++ [b.index] else acc)
        acc = acc ++ (l.filter (blockDiffers m)).map (·.index) by
    simpa [FindDifferentBlocks] using h src (destBlockMap dst) []
  intro l
  induction l with
  | nil => intro m acc; simp
  | cons b t ih =>
    intro m acc
    simp only [List.foldl_cons]
    cases hm : m b.index with
    | none =>
      rw [ih]
      simp [List.filter_cons, blockDiffers, hm]
    | some destHash =>
      by_cases hh : destHash = b.hash
      · subst hh
        rw [ih]
        simp [List.filter_cons, blockDiffers, hm]
      · rw [ih]
        simp [List.filter_cons, blockDiffers, hm, hh]

theorem blockDiffers_iff (m : Int → Option String) (b : FileBlock) :
    blockDiffers m b = true ↔ m b.index ≠ some b.hash := by
  cases hm : m b.index with
  | none => simp [blockDiffers, hm]
  | some h => simp [blockDiffers, hm]

theorem lastHash_eq_some_iff {dst : List FileBlock}
    (hnd : (dst.map (·.index)).Nodup) (i : Int) (h : String) :
    lastHash dst i = some h ↔ ∃ b' ∈ dst, b'.index = i ∧ b'.hash = h := by
  constructor
  · exact lastHash_some_mem
  · rintro ⟨b', hb', rfl, rfl⟩
    exact lastHash_of_mem hnd hb'

/-! ## Lemmas about the sync orchestrator -/

theorem reconcileLoop_error_none_iff (mkdirOk dlOk : String → Bool)
    (localFiles : List FileInfo) (r : List FileInfo) (idx : Int) :
    (reconcileLoop mkdirOk dlOk localFiles r idx).1 = none ↔
      ∀ rf ∈ r, stepOk mkdirOk dlOk localFiles rf = true := by
  induction r generalizing idx with
  | nil => simp [reconcileLoop]
  | cons rf rest ih =>
    simp only [reconcileLoop]
    cases hd : rf.isDir with
    | true =>
      cases hm : mkdirOk rf.path with
      | true => simp [hd, hm, stepOk, ih]
      | false => simp [hd, hm, stepOk]
    | false =>
      cases hn : needsDownload localFiles rf with
      | true =>
        cases hdl : dlOk rf.path with
        | true => simp [hd, hn, hdl, stepOk, ih]
        | false => simp [hd, hn, hdl, stepOk]
      | false => simp [hd, hn, stepOk, ih]

theorem reconcileLoop_of_all_ok (mkdirOk dlOk : String → Bool)
    (localFiles : List FileInfo) (r : List FileInfo) (idx : Int)
    (h : ∀ rf ∈ r, stepOk mkdirOk dlOk localFiles rf = true) :
    reconcileLoop mkdirOk dlOk localFiles r idx =
      (none,
       (r.filter (fun f => !f.isDir && needsDownload localFiles f)).map (·.path),
       (r.filter (fun f => !f.isDir && !needsDownload localFiles f)).map (·.path)) := by
  induction r generalizing idx with
  | nil => simp [reconcileLoop]
  | cons rf rest ih =>
    have hrf := h rf (List.mem_cons_self _ _)
    have hrest : ∀ x ∈ rest, stepOk mkdirOk dlOk localFiles x = true :=
      fun x hx => h x (List.mem_cons_of_mem _ hx)
    simp only [reconcileLoop]
    cases hd : rf.isDir with
    | true =>
      have hm : mkdirOk rf.path = true := by simpa [stepOk, hd] using hrf
      simp [hd, hm, ih _ hrest, List.filter_cons]
    | false =>
      cases hn : needsDownload localFiles rf with
      | true =>
        have hdl : dlOk rf.path = true := by simpa [stepOk, hd, hn] using hrf
        simp [hd, hn, hdl, ih _ hrest, List.filter_cons]
      | false =>
        simp [hd, hn, ih _ hrest, List.filter_cons]

theorem reconcileLoop_first_download_failure (mkdirOk dlOk : String → Bool)
    (localFiles : List FileInfo) (pre post : List FileInfo) (rf : FileInfo)
    (idx : Int)
    (hpre : ∀ x ∈ pre, stepOk mkdirOk dlOk localFiles x = true)
    (hfile : rf.isDir = false) (hneed : needsDownload localFiles rf = true)
    (hfail : dlOk rf.path = false) :
    reconcileLoop mkdirOk dlOk localFiles (pre ++ rf :: post) idx =
      (some (.downloadFailed (idx + fileCount pre) rf.path),
       (pre.filter (fun f => !f.isDir && needsDownload localFiles f)).map (·.path),
       (pre.filter (fun f => !f.isDir && !needsDownload localFiles f)).map (·.path)) := by
  induction pre generalizing idx with
  | nil =>
    simp only [List.nil_append, reconcileLoop]
    simp [hfile, hneed, hfail, fileCount]
  | cons x p ih =>
    have hx := hpre x (List.mem_cons_self _ _)
    have hp : ∀ y ∈ p, stepOk mkdirOk dlOk localFiles y = true :=
      fun y hy => hpre y (List.mem_cons_of_mem _ hy)
    simp only [List.cons_append, reconcileLoop]
    cases hd : x.isDir with
    | true =>
      have hm : mkdirOk x.path = true := by simpa [stepOk, hd] using hx
      have hfc : fileCount (x :: p) = fileCount p := by
        unfold fileCount
        simp [List.filter_cons, hd]
      simp only [hd, hm, if_true, List.append_eq]
      rw [ih idx hp]
      simp [hfc, List.filter_cons, hd]
    | false =>
      have hlen : ((x :: p).filter (fun f => !f.isDir)).length
          = (p.filter (fun f => !f.isDir)).length + 1 := by
        simp [List.filter_cons, hd]
      have hfc : idx + 1 + fileCount p = idx + fileCount (x :: p) := by
        unfold fileCount
        rw [hlen]
        push_cast
        ring
      cases hn : needsDownload localFiles x with
      | true =>
        have hdl : dlOk x.path = true := by simpa [stepOk, hd, hn] using hx
        simp only [hd, hn, hdl, Bool.false_eq_true, if_false, if_true,
          List.append_eq]
        rw [ih (idx + 1) hp]
        simp [hfc, List.filter_cons, hd, hn]
      | false =>
        simp only [hd, hn, Bool.false_eq_true, if_false, List.append_eq]
        rw [ih (idx + 1) hp]
        simp [hfc, List.filter_cons, hd, hn]

theorem reconcileLoop_downloaded_mem (mkdirOk dlOk : String → Bool)
    (localFiles : List FileInfo) (r : List FileInfo) (idx : Int) (p : String)
    (hp : p ∈ (reconcileLoop mkdirOk dlOk localFiles r idx).2.1) :
    ∃ rf ∈ r, rf.path = p ∧ rf.isDir = false ∧
      needsDownload localFiles rf = true := by
  induction r generalizing idx with
  | nil => simp [reconcileLoop] at hp
  | cons rf rest ih =>
    simp only [reconcileLoop] at hp
    cases hd : rf.isDir with
    | true =>
      cases hm : mkdirOk rf.path with
      | true =>
        rw [hd] at hp
        simp only [if_true] at hp
        rw [hm] at hp
        simp only [if_true] at hp
        obtain ⟨x, hx, hxs⟩ := ih _ hp
        exact ⟨x, List.mem_cons_of_mem _ hx, hxs⟩
      | false =>
        rw [hd] at hp
        simp only [if_true] at hp
        rw [hm] at hp
        simp at hp
    | false =>
      rw [hd] at hp
      simp only [Bool.false_eq_true, if_false] at hp
      cases hn : needsDownload localFiles rf with
      | true =>
        rw [hn] at hp
        simp only [if_true] at hp
        cases hdl : dlOk rf.path with
        | true =>
          rw [hdl] at hp
          simp only [if_true, List.mem_cons] at hp
          rcases hp with rfl | hp'
          · exact ⟨rf, List.mem_cons_self _ _, rfl, hd, hn⟩
          · obtain ⟨x, hx, hxs⟩ := ih _ hp'
            exact ⟨x, List.mem_cons_of_mem _ hx, hxs⟩
        | false =>
          rw [hdl] at hp
          simp at hp
      | false =>
        rw [hn] at hp
        simp only [Bool.false_eq_true, if_false] at hp
        obtain ⟨x, hx, hxs⟩ := ih _ hp
        exact ⟨x, List.mem_cons_of_mem _ hx, hxs⟩

theorem reconcileLoop_no_needed_downloads (mkdirOk dlOk : String → Bool)
    (localFiles : List FileInfo) (r : List FileInfo) (idx : Int)
    (h : ∀ rf ∈ r, rf.isDir = false → needsDownload localFiles rf = false) :
    (reconcileLoop mkdirOk dlOk localFiles r idx).2.1 = [] := by
  induction r generalizing idx with
  | nil => simp [reconcileLoop]
  | cons rf rest ih =>
    have hrest : ∀ x ∈ rest, x.isDir = false → needsDownload localFiles x = false :=
      fun x hx => h x (List.mem_cons_of_mem _ hx)
    simp only [reconcileLoop]
    cases hd : rf.isDir with
    | true =>
      cases hm : mkdirOk rf.path with
      | true => simp [ih _ hrest]
      | false => simp
    | false =>
      have hn : needsDownload localFiles rf = false := h rf (List.mem_cons_self _ _) hd
      simp [hd, hn, ih _ hrest]

theorem deleteLoop_eq_filter (statExists removeOk : String → Bool)
    (remoteFiles localFiles : List FileInfo) :
    deleteLoop statExists removeOk remoteFiles localFiles =
      ((localFiles.filter (fun lf =>
          (findFile remoteFiles lf.path).isNone && statExists lf.path &&
            removeOk lf.path)).map (·.path),
       (localFiles.filter (fun lf =>
          (findFile remoteFiles lf.path).isNone && statExists lf.path &&
            !removeOk lf.path)).map (·.path)) := by
  induction localFiles with
  | nil => simp [deleteLoop]
  | cons lf rest ih =>
    simp only [deleteLoop]
    cases hf : findFile remoteFiles lf.path with
    | some x => simp [ih, List.filter_cons, hf]
    | none =>
      cases hs : statExists lf.path with
      | true =>
        cases hr : removeOk lf.path with
        | true => simp [ih, List.filter_cons, hf, hs, hr]
        | false => simp [ih, List.filter_cons, hf, hs, hr]
      | false => simp [ih, List.filter_cons, hf, hs]

theorem syncRemoteFirst_error_eq (mkdirOk dlOk statExists removeOk : String → Bool)
    (remoteFiles localFiles : List FileInfo) :
    (syncRemoteFirst mkdirOk dlOk statExists removeOk remoteFiles localFiles).error =
      (reconcileLoop mkdirOk dlOk localFiles remoteFiles 1).1 := by
  unfold syncRemoteFirst
  cases h : (reconcileLoop mkdirOk dlOk localFiles remoteFiles 1).1 <;> simp [h]

theorem syncRemoteFirst_downloaded_eq (mkdirOk dlOk statExists removeOk : String → Bool)
    (remoteFiles localFiles : List FileInfo) :
    (syncRemoteFirst mkdirOk dlOk statExists removeOk remoteFiles localFiles).downloaded =
      (reconcileLoop mkdirOk dlOk localFiles remoteFiles 1).2.1 := by
  unfold syncRemoteFirst
  cases h : (reconcileLoop mkdirOk dlOk localFiles remoteFiles 1).1 <;> simp [h]

theorem syncRemoteFirst_skipped_eq (mkdirOk dlOk statExists removeOk : String → Bool)
    (remoteFiles localFiles : List FileInfo) :
    (syncRemoteFirst mkdirOk dlOk statExists removeOk remoteFiles localFiles).skipped =
      (reconcileLoop mkdirOk dlOk localFiles remoteFiles 1).2.2 := by
  unfold syncRemoteFirst
  cases h : (reconcileLoop mkdirOk dlOk localFiles remoteFiles 1).1 <;> simp [h]

theorem syncRemoteFirst_deleteFailures_eq (mkdirOk dlOk statExists removeOk : String → Bool)
    (remoteFiles localFiles : List FileInfo)
    (he : (syncRemoteFirst mkdirOk dlOk statExists removeOk remoteFiles localFiles).error = none) :
    (syncRemoteFirst mkdirOk dlOk statExists removeOk remoteFiles localFiles).deleteFailures =
      (deleteLoop statExists removeOk remoteFiles localFiles).2 := by
  rw [syncRemoteFirst_error_eq] at he
  unfold syncRemoteFirst
  simp [he]

theorem findFile_of_mem_nodup {l : List FileInfo} {rf : FileInfo}
    (hnd : (l.map (·.path)).Nodup) (hrf : rf ∈ l) :
    findFile l rf.path = some rf := by
  induction l with
  | nil => simp at hrf
  | cons c t ih =>
    simp only [List.map_cons, List.nodup_cons] at hnd
    rcases List.mem_cons.mp hrf with rfl | hrt
    · unfold findFile
      exact List.find?_cons_of_pos _ (by simp)
    · have hne : c.path ≠ rf.path := by
        intro he
        exact hnd.1 (he ▸ List.mem_map_of_mem (·.path) hrt)
      have hrec := ih hnd.2 hrt
      unfold findFile at hrec ⊢
      rw [List.find?_cons_of_neg _ (by simp [hne])]
      exact hrec

theorem passRecord_path (localBefore : List FileInfo) (newModTime : String → Int)
    (fallbackHash : String → String) (dirSize dirModTime : String → Int)
    (rf : FileInfo) :
    (passRecord localBefore newModTime fallbackHash dirSize dirModTime rf).path =
      rf.path := by
  unfold passRecord
  cases hd : rf.isDir with
  | true => simp
  | false =>
    simp only [Bool.false_eq_true, if_false]
    cases hf : findFile localBefore rf.path with
    | none => rfl
    | some lf =>
      have hf' : List.find? (fun f => decide (f.path = rf.path)) localBefore = some lf := hf
      have hp' := List.find?_some hf'
      have hp : lf.path = rf.path := of_decide_eq_true hp'
      cases hdf : isFileDifferent rf lf <;> simp [downloadedRecord, hp, hdf]

theorem isFileDifferent_downloadedRecord (rf : FileInfo) (hfile : rf.isDir = false)
    (nmt : Int) (fh : String) :
    isFileDifferent rf (downloadedRecord rf nmt fh) = false := by
  unfold isFileDifferent downloadedRecord
  by_cases h : rf.md5 = "" <;> simp [hfile, h]

theorem isFileDifferent_passRecord (localBefore : List FileInfo)
    (newModTime : String → Int) (fallbackHash : String → String)
    (dirSize dirModTime : String → Int) (rf : FileInfo) (hfile : rf.isDir = false) :
    isFileDifferent rf
      (passRecord localBefore newModTime fallbackHash dirSize dirModTime rf) = false := by
  unfold passRecord
  rw [hfile]
  simp only [Bool.false_eq_true, if_false]
  cases hf : findFile localBefore rf.path with
  | none => exact isFileDifferent_downloadedRecord rf hfile _ _
  | some lf =>
    cases hdf : isFileDifferent rf lf with
    | true =>
      simpa [hdf] using isFileDifferent_downloadedRecord rf hfile (newModTime rf.path)
        (fallbackHash rf.path)
    | false => simp [hdf]

theorem findFile_localAfterPass (remote localBefore : List FileInfo)
    (newModTime : String → Int) (fallbackHash : String → String)
    (dirSize dirModTime : String → Int) {rf : FileInfo}
    (hnd : (remote.map (·.path)).Nodup) (hrf : rf ∈ remote) :
    findFile (localAfterPass remote localBefore newModTime fallbackHash dirSize dirModTime)
        rf.path =
      some (passRecord localBefore newModTime fallbackHash dirSize dirModTime rf) := by
  unfold localAfterPass findFile
  rw [List.find?_map]
  have hpred : ((fun f : FileInfo => decide (f.path = rf.path)) ∘
      passRecord localBefore newModTime fallbackHash dirSize dirModTime) =
      fun x : FileInfo => decide (x.path = rf.path) := by
    funext x
    simp [Function.comp, passRecord_path]
  rw [hpred]
  have hfd := findFile_of_mem_nodup hnd hrf
  unfold findFile at hfd
  rw [hfd]
  rfl

theorem needsDownload_localAfterPass (remote localBefore : List FileInfo)
    (newModTime : String → Int) (fallbackHash : String → String)
    (dirSize dirModTime : String → Int) {rf : FileInfo}
    (hnd : (remote.map (·.path)).Nodup) (hrf : rf ∈ remote)
    (hfile : rf.isDir = false) :
    needsDownload
      (localAfterPass remote localBefore newModTime fallbackHash dirSize dirModTime)
      rf = false := by
  unfold needsDownload
  rw [findFile_localAfterPass remote localBefore newModTime fallbackHash dirSize
    dirModTime hnd hrf]
  exact isFileDifferent_passRecord localBefore newModTime fallbackHash dirSize
    dirModTime rf hfile

/-! ## Claim C7 -/

/-- C7: for all block lists `srcBlocks` and `dstBlocks` (destination
indices unambiguous), `FindDifferentBlocks` returns exactly the indices
that occur in `srcBlocks` and are either absent from `dstBlocks` or carry
a different hash there; an index present only in `dstBlocks` is never
returned. -/
theorem findDifferentBlocks_correct (src dst : List FileBlock)
    (hnd : (dst.map (·.index)).Nodup) :
    (∀ i : Int, i ∈ FindDifferentBlocks src dst ↔
      ∃ b ∈ src, b.index = i ∧ ¬ ∃ b' ∈ dst, b'.index = i ∧ b'.hash = b.hash) ∧
    (∀ i ∈ FindDifferentBlocks src dst, ∃ b ∈ src, b.index = i) := by
  have main : ∀ i : Int, i ∈ FindDifferentBlocks src dst ↔
      ∃ b ∈ src, b.index = i ∧ ¬ ∃ b' ∈ dst, b'.index = i ∧ b'.hash = b.hash := by
    intro i
    rw [findDifferentBlocks_eq_filter]
    simp only [List.mem_map, List.mem_filter]
    constructor
    · rintro ⟨b, ⟨hbsrc, hdiff⟩, rfl⟩
      refine ⟨b, hbsrc, rfl, ?_⟩
      rw [blockDiffers_iff, destBlockMap_eq_lastHash] at hdiff
      intro hex
      exact hdiff ((lastHash_eq_some_iff hnd _ _).mpr hex)
    · rintro ⟨b, hbsrc, rfl, hnex⟩
      refine ⟨b, ⟨hbsrc, ?_⟩, rfl⟩
      rw [blockDiffers_iff, destBlockMap_eq_lastHash]
      intro hsome
      exact hnex (lastHash_some_mem hsome)
  refine ⟨main, ?_⟩
  intro i hi
  obtain ⟨b, hb, hbi, -⟩ := (main i).mp hi
  exact ⟨b, hb, hbi⟩

/-- Witness for C7 at a concrete input: source blocks 0,1, destination
with block 1 mismatched and an extra block 2; index 1 is differing and
index 2 (destination-only) is not returned. -/
theorem findDifferentBlocks_correct_witness :
    ((([⟨0, "a", 5⟩, ⟨1, "c", 5⟩, ⟨2, "d", 2⟩] : List FileBlock).map
        (·.index)).Nodup) ∧
    (1 ∈ FindDifferentBlocks [⟨0, "a", 5⟩, ⟨1, "b", 5⟩]
        [⟨0, "a", 5⟩, ⟨1, "c", 5⟩, ⟨2, "d", 2⟩] ↔
      ∃ b ∈ ([⟨0, "a", 5⟩, ⟨1, "b", 5⟩] : List FileBlock), b.index = 1 ∧
        ¬ ∃ b' ∈ ([⟨0, "a", 5⟩, ⟨1, "c", 5⟩, ⟨2, "d", 2⟩] : List FileBlock),
            b'.index = 1 ∧ b'.hash = b.hash) :=
  ⟨by decide,
    (findDifferentBlocks_correct [⟨0, "a", 5⟩, ⟨1, "b", 5⟩]
      [⟨0, "a", 5⟩, ⟨1, "c", 5⟩, ⟨2, "d", 2⟩] (by decide)).1 1⟩

/-! ## Claim C4 -/

/-- C4 counterexample: for a 2 MiB file with the destination absent,
`CopyFile` selects the parallel strategy, not the sequential one demanded
by the claim's rule "destination absent ⇒ sequential". -/
theorem chooseStrategy_dest_absent_counterexample :
    chooseStrategy (2 * 1024 * 1024) false = .parallel ∧
    chooseStrategy (2 * 1024 * 1024) false ≠ .sequential := by
  constructor
  · rfl
  · intro h
    simp [chooseStrategy, MinParallelSize] at h

/-- C4 amended: the strategy is chosen once per file as: sequential when
the file is no larger than `MinParallelSize` (1 MiB), whatever the
destination; delta when larger and the destination exists, falling back
to parallel when the blocks of the temporary file cannot be computed;
parallel when larger and the destination is absent. -/
theorem effectiveStrategy_eq_specStrategy (srcSize : Int)
    (destExists tempBlocksOk : Bool) :
    effectiveStrategy srcSize destExists tempBlocksOk =
      specStrategy srcSize destExists tempBlocksOk := by
  unfold effectiveStrategy specStrategy chooseStrategy
  rcases le_or_lt srcSize MinParallelSize with h | h
  · have h2 : ¬ srcSize > MinParallelSize := not_lt.mpr h
    cases destExists <;> simp [h, h2]
  · have h2 : ¬ srcSize ≤ MinParallelSize := not_le.mpr h
    cases destExists <;> cases tempBlocksOk <;> simp [h, h2]

theorem copyFinalize_published {s : String} {t : Option String} {r : Bool}
    (hp : (copyFinalize s t r).published = true) : t = some s := by
  unfold copyFinalize at hp
  split at hp
  · simp at hp
  · rename_i h
    by_cases hne : s = h
    · exact congrArg some hne.symm
    · rw [if_pos (show s ≠ h from hne)] at hp
      simp at hp

theorem GetFile_published_conditions (e : GetEnv) (fi : FileInfo)
    (hresp : e.respFile = some fi)
    (hp : (GetFile e).published = true) :
    ∃ h, e.tempMD5 = some h ∧ (fi.md5 ≠ "" → fi.md5 = h) := by
  by_cases hc : e.connectOk = true
  case neg => simp [GetFile, hc] at hp
  by_cases hs : e.sendOk = true
  case neg => simp [GetFile, hc, hs] at hp
  by_cases hd : e.decodeOk = true
  case neg => simp [GetFile, hc, hs, hd] at hp
  by_cases hst : e.respStatus = "ok"
  case neg => simp [GetFile, hc, hs, hd, hst] at hp
  by_cases hm : e.mkdirOk = true
  case neg => simp [GetFile, hresp, hc, hs, hd, hst, hm] at hp
  by_cases ho : e.openTempOk = true
  case neg => simp [GetFile, hresp, hc, hs, hd, hst, hm, ho] at hp
  by_cases ht : e.transferOk = true
  case neg => simp [GetFile, hresp, hc, hs, hd, hst, hm, ho, ht] at hp
  by_cases hmd : fi.md5 = ""
  · cases htm : e.tempMD5 with
    | none => simp [GetFile, hresp, hc, hs, hd, hst, hm, ho, ht, hmd, htm] at hp
    | some h => exact ⟨h, rfl, fun hcon => absurd hmd hcon⟩
  · cases htm : e.tempMD5 with
    | none => simp [GetFile, hresp, hc, hs, hd, hst, hm, ho, ht, hmd, htm] at hp
    | some h =>
      by_cases hne : fi.md5 = h
      · exact ⟨h, rfl, fun _ => hne⟩
      · simp [GetFile, hresp, hc, hs, hd, hst, hm, ho, ht, hmd, htm, hne] at hp

/-! ## Claim C1 -/

/-- C1 counterexample: `GetFile` with an empty advertised hash publishes
the temp file (result ok, rename performed) although the temp file's
computed hash "abc" is not equal to the advertised hash "". -/
theorem getFile_publishes_without_hash_match_counterexample :
    (GetFile
      { connectOk := true, sendOk := true, decodeOk := true,
        respStatus := "ok",
        respFile := some
          { path := "f", size := 3, modTime := 0, isDir := false,
            mode := 420, md5 := "" },
        mkdirOk := true, openTempOk := true, transferOk := true,
        tempMD5 := some "abc", renameOk := true }) =
      ⟨.ok, true⟩ ∧
    ("abc" : String) ≠ "" :=
  ⟨rfl, by decide⟩

/-- C1 amended: `CopyFile` renames the temp file onto the destination only
after its whole-file hash is computed and equal to the source hash, and on
mismatch returns ContentMismatch without touching the destination (the
deferred remove discards the temp file). `GetFile` does the same whenever
the advertised hash is nonempty; when the server advertises no hash it
publishes without comparing. -/
theorem transfer_verifies_before_publish :
    (∀ e : CopyEnv, (CopyFile e).published = true →
      ∃ h, e.srcMD5 = some h ∧ e.tempMD5 = some h) ∧
    (∀ (e : CopyEnv) (h1 h2 : String),
      e.srcMD5 = some h1 → e.tempMD5 = some h2 → h1 ≠ h2 →
      e.openSrcOk = true → e.statSrcOk = true → e.openTempOk = true →
      e.statTempOk = true → (e.tempSize ≥ e.srcSize ∨ e.transferOk = true) →
      CopyFile e = ⟨.contentMismatch, false⟩) ∧
    (∀ (e : GetEnv) (fi : FileInfo), e.respFile = some fi → fi.md5 ≠ "" →
      (GetFile e).published = true → e.tempMD5 = some fi.md5) ∧
    (∀ (e : GetEnv) (fi : FileInfo) (h : String),
      e.respFile = some fi → fi.md5 ≠ "" → e.tempMD5 = some h → fi.md5 ≠ h →
      e.connectOk = true → e.sendOk = true → e.decodeOk = true →
      e.respStatus = "ok" → e.mkdirOk = true → e.openTempOk = true →
      e.transferOk = true →
      GetFile e = ⟨.contentMismatch, false⟩) := by
  refine ⟨?_, ?_, ?_, ?_⟩
  · intro e hp
    unfold CopyFile at hp
    split at hp
    · simp at hp
    · rename_i srcMD5 hsrc
      split_ifs at hp <;>
        exact ⟨srcMD5, hsrc, copyFinalize_published hp⟩
  · intro e h1 h2 hsrc htmp hne ho hs hot hst hco
    unfold CopyFile
    rw [hsrc]
    by_cases hge : e.tempSize ≥ e.srcSize
    · simp [ho, hs, hot, hst, hge, copyFinalize, htmp, hne]
    · rcases hco with hge' | htr
      · exact absurd hge' hge
      · simp [ho, hs, hot, hst, hge, htr, copyFinalize, htmp, hne]
  · intro e fi hresp hne hp
    obtain ⟨h, htm, himp⟩ := GetFile_published_conditions e fi hresp hp
    rw [htm, himp hne]
  · intro e fi h hresp hnem htmp hneq hc hs hd hst hm ho ht
    simp [GetFile, hresp, hc, hs, hd, hst, hm, ho, ht, htmp, hnem, hneq]

/-- Witness for C1 at a concrete input: a `CopyFile` whose source hash
"h1" and temp hash "h2" differ returns ContentMismatch and does not
publish. -/
theorem transfer_verifies_before_publish_witness :
    ("h1" : String) ≠ "h2" ∧
    CopyFile
      { srcMD5 := some "h1", openSrcOk := true, statSrcOk := true,
        srcSize := 5, destExists := true, openTempOk := true,
        statTempOk := true, tempSize := 5, transferOk := true,
        tempMD5 := some "h2", renameOk := true } =
      ⟨.contentMismatch, false⟩ :=
  ⟨by decide,
    transfer_verifies_before_publish.2.1 _ "h1" "h2" rfl rfl (by decide) rfl rfl
      rfl rfl (Or.inl (by decide))⟩

/-! ## Claim C10 -/

/-- C10: when the advertised `MD5` is empty, `GetFile` skips hash
verification — it publishes whatever was downloaded (success whenever the
surrounding I/O succeeds, for every computed temp hash), and its outcome
does not depend on the computed hash at all. -/
theorem getFile_skips_verification_on_empty_hash :
    (∀ (e : GetEnv) (fi : FileInfo) (h : String),
      e.respFile = some fi → fi.md5 = "" →
      e.connectOk = true → e.sendOk = true → e.decodeOk = true →
      e.respStatus = "ok" → e.mkdirOk = true → e.openTempOk = true →
      e.transferOk = true → e.tempMD5 = some h → e.renameOk = true →
      GetFile e = ⟨.ok, true⟩) ∧
    (∀ (e : GetEnv) (fi : FileInfo) (h1 h2 : String),
      e.respFile = some fi → fi.md5 = "" →
      GetFile { e with tempMD5 := some h1 } =
        GetFile { e with tempMD5 := some h2 }) := by
  constructor
  · intro e fi h hresp hmd5 hc hs hd hst hm ho ht htmp hr
    simp [GetFile, hresp, hmd5, hc, hs, hd, hst, hm, ho, ht, htmp, hr]
  · intro e fi h1 h2 hresp hmd5
    simp [GetFile, hresp, hmd5]

/-- Witness for C10 at a concrete input: advertised hash empty, computed
hash "zzz", everything else succeeding — the download is published. -/
theorem getFile_skips_verification_on_empty_hash_witness :
    GetFile
      { connectOk := true, sendOk := true, decodeOk := true,
        respStatus := "ok",
        respFile := some
          { path := "g", size := 9, modTime := 1, isDir := false,
            mode := 420, md5 := "" },
        mkdirOk := true, openTempOk := true, transferOk := true,
        tempMD5 := some "zzz", renameOk := true } = ⟨.ok, true⟩ :=
  getFile_skips_verification_on_empty_hash.1 _
    { path := "g", size := 9, modTime := 1, isDir := false, mode := 420,
      md5 := "" } "zzz" rfl rfl rfl rfl rfl rfl rfl rfl rfl rfl rfl

/-! ## Claim C3 -/

/-- C3 counterexample: a run whose only work is one deletion, and that
deletion fails (`removeOk` always false), still reports success
(`error = none`) while recording the failure — so "reports success only
if every required deletion succeeds" is false on the code. -/
theorem syncRemoteFirst_delete_failure_counterexample :
    (syncRemoteFirst (fun _ => true) (fun _ => true) (fun _ => true) (fun _ => false)
        [] [{ path := "extra", size := 1, modTime := 0, isDir := false,
              mode := 420, md5 := "h" }]).error = none ∧
    (syncRemoteFirst (fun _ => true) (fun _ => true) (fun _ => true) (fun _ => false)
        [] [{ path := "extra", size := 1, modTime := 0, isDir := false,
              mode := 420, md5 := "h" }]).deleteFailures = ["extra"] :=
  ⟨rfl, rfl⟩

/-- C3 amended: the run reports success exactly when every directory
creation and every required download succeeds; the deletion outcomes
never influence the reported result; a deletion failure is recorded in
the run's failure log; and the first download failure aborts the run
immediately, reporting the failing file's running index and path, with
no later entry processed. -/
theorem syncRemoteFirst_failure_policy
    (mkdirOk dlOk statExists removeOk statExists' removeOk' : String → Bool)
    (remoteFiles localFiles pre post : List FileInfo) (rf : FileInfo)
    (hpre : ∀ x ∈ pre, stepOk mkdirOk dlOk localFiles x = true)
    (hfile : rf.isDir = false) (hneed : needsDownload localFiles rf = true)
    (hfail : dlOk rf.path = false) :
    ((syncRemoteFirst mkdirOk dlOk statExists removeOk remoteFiles localFiles).error =
        none ↔
      ∀ x ∈ remoteFiles, stepOk mkdirOk dlOk localFiles x = true) ∧
    ((syncRemoteFirst mkdirOk dlOk statExists removeOk remoteFiles localFiles).error =
      (syncRemoteFirst mkdirOk dlOk statExists' removeOk' remoteFiles localFiles).error) ∧
    (∀ p : String,
      (syncRemoteFirst mkdirOk dlOk statExists removeOk remoteFiles localFiles).error =
        none →
      (p ∈ (syncRemoteFirst mkdirOk dlOk statExists removeOk remoteFiles
            localFiles).deleteFailures ↔
        ∃ lf ∈ localFiles, lf.path = p ∧ findFile remoteFiles lf.path = none ∧
          statExists p = true ∧ removeOk p = false)) ∧
    (syncRemoteFirst mkdirOk dlOk statExists removeOk (pre ++ rf :: post) localFiles =
      { error := some (.downloadFailed (1 + fileCount pre) rf.path),
        downloaded :=
          (pre.filter (fun f => !f.isDir && needsDownload localFiles f)).map (·.path),
        skipped :=
          (pre.filter (fun f => !f.isDir && !needsDownload localFiles f)).map (·.path),
        deleted := [], deleteFailures := [] }) := by
  refine ⟨?_, ?_, ?_, ?_⟩
  · rw [syncRemoteFirst_error_eq]
    exact reconcileLoop_error_none_iff mkdirOk dlOk localFiles remoteFiles 1
  · rw [syncRemoteFirst_error_eq, syncRemoteFirst_error_eq]
  · intro p he
    rw [syncRemoteFirst_deleteFailures_eq mkdirOk dlOk statExists removeOk
      remoteFiles localFiles he]
    rw [deleteLoop_eq_filter]
    simp only [List.mem_map, List.mem_filter]
    constructor
    · rintro ⟨lf, ⟨hlf, hcond⟩, rfl⟩
      simp only [Bool.and_eq_true, Option.isNone_iff_eq_none, Bool.not_eq_true'] at hcond
      exact ⟨lf, hlf, rfl, hcond.1.1, hcond.1.2, hcond.2⟩
    · rintro ⟨lf, hlf, rfl, hnone, hstat, hrm⟩
      refine ⟨lf, ⟨hlf, ?_⟩, rfl⟩
      simp [hnone, hstat, hrm]
  · unfold syncRemoteFirst
    rw [reconcileLoop_first_download_failure mkdirOk dlOk localFiles pre post rf 1
      hpre hfile hneed hfail]

/-- Witness for C3 at a concrete input: an empty prefix, one remote file
needing download whose download fails; the run aborts with index 1 and the
file's path, having downloaded and skipped nothing. -/
theorem syncRemoteFirst_failure_policy_witness :
    (∀ x ∈ ([] : List FileInfo), stepOk (fun _ => true) (fun _ => false) [] x = true) ∧
    (({ path := "b", size := 1, modTime := 0, isDir := false, mode := 420,
        md5 := "" } : FileInfo).isDir = false) ∧
    needsDownload []
      { path := "b", size := 1, modTime := 0, isDir := false, mode := 420,
        md5 := "" } = true ∧
    (syncRemoteFirst (fun _ => true) (fun _ => false) (fun _ => true) (fun _ => true)
        ([] ++ { path := "b", size := 1, modTime := 0, isDir := false, mode := 420,
                 md5 := "" } :: []) [] =
      { error := some (.downloadFailed (1 + fileCount []) "b"),
        downloaded := (([] : List FileInfo).filter
          (fun f => !f.isDir && needsDownload [] f)).map (·.path),
        skipped := (([] : List FileInfo).filter
          (fun f => !f.isDir && !needsDownload [] f)).map (·.path),
        deleted := [], deleteFailures := [] }) :=
  ⟨fun x hx => absurd hx (List.not_mem_nil x), rfl, rfl,
    (syncRemoteFirst_failure_policy (fun _ => true) (fun _ => false) (fun _ => true)
      (fun _ => true) (fun _ => true) (fun _ => true) [] [] [] []
      { path := "b", size := 1, modTime := 0, isDir := false, mode := 420, md5 := "" }
      (fun x hx => absurd hx (List.not_mem_nil x)) rfl rfl rfl).2.2.2⟩

/-! ## Claim C6 -/

/-- C6: two entries compare equal exactly when they have the same `isDir`,
the same size, and — when both hashes are known — the same hash; a path is
downloaded only when no local counterpart exists or the entries compare
unequal; records with equal `isDir`, size and hash compare equal whatever
their `modTime`, and such a file entry is never downloaded. -/
theorem equality_rule_and_download_condition :
    (∀ f1 f2 : FileInfo, isFileDifferent f1 f2 = false ↔
      (f1.isDir = f2.isDir ∧ f1.size = f2.size ∧
        (f1.md5 ≠ "" → f2.md5 ≠ "" → f1.md5 = f2.md5))) ∧
    (∀ (mkdirOk dlOk statExists removeOk : String → Bool)
        (remoteFiles localFiles : List FileInfo) (p : String),
      p ∈ (syncRemoteFirst mkdirOk dlOk statExists removeOk remoteFiles
          localFiles).downloaded →
      ∃ rf ∈ remoteFiles, rf.path = p ∧ rf.isDir = false ∧
        (findFile localFiles rf.path = none ∨
          ∃ lf, findFile localFiles rf.path = some lf ∧
            isFileDifferent rf lf = true)) ∧
    (∀ f1 f2 : FileInfo, f1.isDir = f2.isDir → f1.size = f2.size →
      f1.md5 = f2.md5 → isFileDifferent f1 f2 = false) ∧
    (∀ (mkdirOk dlOk statExists removeOk : String → Bool)
        (remoteFiles localFiles : List FileInfo) (rf lf : FileInfo),
      (remoteFiles.map (·.path)).Nodup → rf ∈ remoteFiles → rf.isDir = false →
      findFile localFiles rf.path = some lf → isFileDifferent rf lf = false →
      rf.path ∉ (syncRemoteFirst mkdirOk dlOk statExists removeOk remoteFiles
          localFiles).downloaded) := by
  have hiff : ∀ f1 f2 : FileInfo, isFileDifferent f1 f2 = false ↔
      (f1.isDir = f2.isDir ∧ f1.size = f2.size ∧
        (f1.md5 ≠ "" → f2.md5 ≠ "" → f1.md5 = f2.md5)) := by
    intro f1 f2
    unfold isFileDifferent
    split_ifs with h1 h2 h3
    · simp only [Bool.true_eq_false, false_iff]
      rintro ⟨hd, -, -⟩
      exact h1 hd
    · simp only [Bool.true_eq_false, false_iff]
      rintro ⟨-, hs, -⟩
      exact h2 hs
    · simp only [Bool.true_eq_false, false_iff]
      rintro ⟨-, -, himp⟩
      exact h3.2.2 (himp h3.1 h3.2.1)
    · constructor
      · intro _
        refine ⟨not_not.mp h1, not_not.mp h2, fun hm1 hm2 => ?_⟩
        by_contra hne
        exact h3 ⟨hm1, hm2, hne⟩
      · intro _
        rfl
  have hmem : ∀ (mkdirOk dlOk statExists removeOk : String → Bool)
      (remoteFiles localFiles : List FileInfo) (p : String),
      p ∈ (syncRemoteFirst mkdirOk dlOk statExists removeOk remoteFiles
          localFiles).downloaded →
      ∃ rf ∈ remoteFiles, rf.path = p ∧ rf.isDir = false ∧
        needsDownload localFiles rf = true := by
    intro mkdirOk dlOk statExists removeOk remoteFiles localFiles p hp
    rw [syncRemoteFirst_downloaded_eq] at hp
    exact reconcileLoop_downloaded_mem mkdirOk dlOk localFiles remoteFiles 1 p hp
  refine ⟨hiff, ?_, ?_, ?_⟩
  · intro mkdirOk dlOk statExists removeOk remoteFiles localFiles p hp
    obtain ⟨rf, hrf, hpath, hdir, hneed⟩ :=
      hmem mkdirOk dlOk statExists removeOk remoteFiles localFiles p hp
    refine ⟨rf, hrf, hpath, hdir, ?_⟩
    unfold needsDownload at hneed
    cases hf : findFile localFiles rf.path with
    | none => exact Or.inl rfl
    | some lf =>
      rw [hf] at hneed
      exact Or.inr ⟨lf, rfl, by simpa using hneed⟩
  · intro f1 f2 h1 h2 h3
    exact (hiff f1 f2).mpr ⟨h1, h2, fun _ _ => h3⟩
  · intro mkdirOk dlOk statExists removeOk remoteFiles localFiles rf lf hnd hrf
      hdir hff hdiff hin
    obtain ⟨rf', hrf', hpath', hdir', hneed'⟩ :=
      hmem mkdirOk dlOk statExists removeOk remoteFiles localFiles rf.path hin
    have heq : rf' = rf :=
      List.inj_on_of_nodup_map hnd hrf' hrf hpath'
    subst heq
    unfold needsDownload at hneed'
    rw [hff] at hneed'
    simp [hdiff] at hneed'

/-- Witness for C6 at a concrete input: two records equal in every field
the comparison uses but with different `modTime` (and mode) compare
equal. -/
theorem equality_rule_witness :
    isFileDifferent
      { path := "f", size := 10, modTime := 100, isDir := false, mode := 420,
        md5 := "h" }
      { path := "f", size := 10, modTime := 999, isDir := false, mode := 384,
        md5 := "h" } = false :=
  equality_rule_and_download_condition.2.2.1 _ _ rfl rfl rfl

/-! ## Claim C8 -/

/-- C8: rerunning the reconcile pass against the local tree produced by a
successful pass (all downloads verified against the advertised records,
local-only entries deleted) performs zero downloads — every remote file's
local counterpart compares equal, and in an error-free second pass every
remote file is skipped. -/
theorem second_pass_performs_no_downloads
    (remote localBefore : List FileInfo)
    (mkdirOk dlOk statExists removeOk : String → Bool)
    (newModTime : String → Int) (fallbackHash : String → String)
    (dirSize dirModTime : String → Int)
    (hnd : (remote.map (·.path)).Nodup) :
    (syncRemoteFirst mkdirOk dlOk statExists removeOk remote
        (localAfterPass remote localBefore newModTime fallbackHash dirSize
          dirModTime)).downloaded = [] ∧
    (∀ rf ∈ remote, rf.isDir = false →
      needsDownload (localAfterPass remote localBefore newModTime fallbackHash
        dirSize dirModTime) rf = false) ∧
    ((syncRemoteFirst mkdirOk dlOk statExists removeOk remote
        (localAfterPass remote localBefore newModTime fallbackHash dirSize
          dirModTime)).error = none →
      (syncRemoteFirst mkdirOk dlOk statExists removeOk remote
        (localAfterPass remote localBefore newModTime fallbackHash dirSize
          dirModTime)).skipped = (remote.filter (fun f => !f.isDir)).map (·.path)) := by
  have hno : ∀ rf ∈ remote, rf.isDir = false →
      needsDownload (localAfterPass remote localBefore newModTime fallbackHash
        dirSize dirModTime) rf = false :=
    fun rf hrf hfile =>
      needsDownload_localAfterPass remote localBefore newModTime fallbackHash
        dirSize dirModTime hnd hrf hfile
  refine ⟨?_, hno, ?_⟩
  · rw [syncRemoteFirst_downloaded_eq]
    exact reconcileLoop_no_needed_downloads mkdirOk dlOk _ remote 1 hno
  · intro he
    rw [syncRemoteFirst_error_eq] at he
    have hall := (reconcileLoop_error_none_iff mkdirOk dlOk _ remote 1).mp he
    rw [syncRemoteFirst_skipped_eq,
      reconcileLoop_of_all_ok mkdirOk dlOk _ remote 1 hall]
    have hfc : remote.filter (fun f => !f.isDir &&
        !needsDownload (localAfterPass remote localBefore newModTime fallbackHash
          dirSize dirModTime) f) = remote.filter (fun f => !f.isDir) := by
      apply List.filter_congr
      intro x hx
      cases hd : x.isDir with
      | true => simp [hd]
      | false => simp [hd, hno x hx hd]
    rw [hfc]

/-- Witness for C8 at a concrete input: one remote file, empty previous
local tree; the second pass downloads nothing. -/
theorem second_pass_performs_no_downloads_witness :
    ((([{ path := "a", size := 5, modTime := 7, isDir := false, mode := 420,
          md5 := "h" }] : List FileInfo).map (·.path)).Nodup) ∧
    (syncRemoteFirst (fun _ => true) (fun _ => true) (fun _ => true) (fun _ => true)
        [{ path := "a", size := 5, modTime := 7, isDir := false, mode := 420,
           md5 := "h" }]
        (localAfterPass
          [{ path := "a", size := 5, modTime := 7, isDir := false, mode := 420,
             md5 := "h" }] [] (fun _ => 0) (fun _ => "x") (fun _ => 0)
          (fun _ => 0))).downloaded = [] :=
  ⟨by decide,
    (second_pass_performs_no_downloads
      [{ path := "a", size := 5, modTime := 7, isDir := false, mode := 420,
         md5 := "h" }] [] (fun _ => true) (fun _ => true) (fun _ => true)
      (fun _ => true) (fun _ => 0) (fun _ => "x") (fun _ => 0) (fun _ => 0)
      (by decide)).1⟩

theorem pickFresh_fresh {fs : String → Option Nat} {gen : Nat → String}
    {fuel k : Nat} {t : String} (h : pickFresh fs gen fuel k = some t) :
    fs t = none := by
  induction fuel generalizing k with
  | zero => simp [pickFresh] at h
  | succ n ih =>
    simp only [pickFresh] at h
    split_ifs at h with hex
    · exact ih h
    · cases h
      cases hfs : fs (gen k) with
      | none => rfl
      | some v =>
        rw [hfs] at hex
        simp at hex

/-! ## Claim C2 -/

/-- C2 counterexample: an accepted `file` request with no block field
(decoded block index 0) for a file of 2 MiB + 5 bytes streams exactly
1 MiB — the clipped block-0 range — not the full `size` bytes the claim
demands. -/
theorem handleFileRequest_whole_file_counterexample :
    (handleFileRequest true false true (2 * 1024 * 1024 + 5) 0
        (decodedBlockIndex none) 0).payload = 1024 * 1024 ∧
    (handleFileRequest true false true (2 * 1024 * 1024 + 5) 0
        (decodedBlockIndex none) 0).payload ≠ 2 * 1024 * 1024 + 5 := by
  constructor
  · decide
  · decide

/-- C2 amended: every accepted `file` request gets one structured ok
message, then exactly one literal newline sentinel byte, then the raw
range — but an absent block index decodes to 0 and the server treats any
nonnegative index as a block request, so it streams the clipped block
range `max 0 (min BlockSize (size - blockIndex*BlockSize))`; the whole
file from `offset` is streamed only for a negative index, and a request
without a block field receives the full `size` bytes exactly when the
file is no larger than one block. -/
theorem handleFileRequest_framing (statOk isDir openOk : Bool)
    (size offset blockIndex blockSize : Int)
    (hstat : statOk = true) (hdir : isDir = false) (hopen : openOk = true) :
    ((handleFileRequest statOk isDir openOk size offset blockIndex
        blockSize).status = "ok" ∧
     (handleFileRequest statOk isDir openOk size offset blockIndex
        blockSize).sentinels = 1) ∧
    decodedBlockIndex none = 0 ∧
    (blockIndex ≥ 0 →
      (handleFileRequest statOk isDir openOk size offset blockIndex
        blockSize).payload =
        max 0 (min BlockSize (size - blockIndex * BlockSize))) ∧
    (blockIndex < 0 →
      (handleFileRequest statOk isDir openOk size offset blockIndex
        blockSize).payload = max 0 (size - offset)) ∧
    (0 ≤ size → size ≤ BlockSize →
      (handleFileRequest statOk isDir openOk size 0 0 blockSize).payload =
        size) := by
  subst hstat hdir hopen
  refine ⟨⟨?_, ?_⟩, rfl, ?_, ?_, ?_⟩
  · simp [handleFileRequest]
  · simp [handleFileRequest]
  · intro hbi
    have hred : handleFileRequest true false true size offset blockIndex
        blockSize =
        { status := "ok", sentinels := 1,
          payload := streamLoopBytes size (blockIndex * BlockSize)
            (if blockIndex * BlockSize + BlockSize > size
             then size - blockIndex * BlockSize
             else BlockSize) } := by
      simp [handleFileRequest, hbi]
    rw [hred]
    simp only [streamLoopBytes, min_def, max_def, BlockSize]
    split_ifs <;> omega
  · intro hbi
    have hbi' : ¬ blockIndex ≥ 0 := not_le.mpr hbi
    have hred : handleFileRequest true false true size offset blockIndex
        blockSize =
        { status := "ok", sentinels := 1,
          payload := streamLoopBytes size offset (size - offset) } := by
      simp [handleFileRequest, hbi']
    rw [hred]
    simp only [streamLoopBytes, min_def, max_def]
    split_ifs <;> omega
  · intro h0 hbs
    have hred : handleFileRequest true false true size 0 0 blockSize =
        { status := "ok", sentinels := 1,
          payload := streamLoopBytes size (0 * BlockSize)
            (if 0 * BlockSize + BlockSize > size
             then size - 0 * BlockSize
             else BlockSize) } := by
      simp [handleFileRequest]
    rw [hred]
    simp only [streamLoopBytes, min_def, max_def, BlockSize] at hbs ⊢
    split_ifs <;> omega

/-- Witness for C2 at a concrete input: an accepted block-less request
for a 5-byte file gets an ok message, one sentinel, and all 5 bytes. -/
theorem handleFileRequest_framing_witness :
    ((0 : Int) ≤ 5 ∧ (5 : Int) ≤ BlockSize) ∧
    (handleFileRequest true false true 5 0 0 0).payload = 5 :=
  ⟨⟨by decide, by decide⟩,
    (handleFileRequest_framing true false true 5 0 0 0 rfl rfl
      rfl).2.2.2.2 (by decide) (by decide)⟩

/-! ## Claim C5 -/

/-- C5 counterexample: with the existing destination's blocks equal to the
source's, the claim demands no block transfer, but `copyFileDelta`
computes the diff against the temporary file (here holding different
bytes) and transfers block 0. -/
theorem copyFileDelta_diffs_temp_counterexample :
    copyFileDelta (some [⟨0, "a", 5⟩]) (some [⟨0, "b", 5⟩]) =
      .transferred [0] ∧
    FindDifferentBlocks [⟨0, "a", 5⟩] [⟨0, "a", 5⟩] = [] ∧
    copyFileDelta (some [⟨0, "a", 5⟩]) (some [⟨0, "b", 5⟩]) ≠
      .transferred (FindDifferentBlocks [⟨0, "a", 5⟩] [⟨0, "a", 5⟩]) := by
  refine ⟨rfl, rfl, ?_⟩
  decide

/-- C5 amended: in delta mode the engine computes block hashes of the
source and of the temporary file itself — not of the existing
destination, from which the temp file is never seeded — transfers exactly
`FindDifferentBlocks(source, temp)`, falls back to parallel when the temp
file's blocks cannot be computed, and every untouched block of the temp
file already carries the source's block hash, so after the copy every
source block index does. -/
theorem copyFileDelta_correct (src temp : List FileBlock)
    (hsrc : (src.map (·.index)).Nodup) :
    copyFileDelta (some src) (some temp) =
      .transferred (FindDifferentBlocks src temp) ∧
    (∀ b ∈ src, b.index ∉ FindDifferentBlocks src temp →
      lastHash temp b.index = some b.hash) ∧
    (∀ b ∈ src,
      applyDelta src temp (FindDifferentBlocks src temp) b.index =
        some b.hash) ∧
    copyFileDelta (some src) none = .parallelFallback := by
  have huntouched : ∀ b ∈ src, b.index ∉ FindDifferentBlocks src temp →
      lastHash temp b.index = some b.hash := by
    intro b hb hnot
    by_cases hd : blockDiffers (destBlockMap temp) b = true
    · exfalso
      apply hnot
      rw [findDifferentBlocks_eq_filter]
      exact List.mem_map_of_mem _ (List.mem_filter.mpr ⟨hb, hd⟩)
    · have h2 : destBlockMap temp b.index = some b.hash :=
        not_not.mp (fun hne => hd ((blockDiffers_iff _ _).mpr hne))
      rw [destBlockMap_eq_lastHash] at h2
      exact h2
  refine ⟨rfl, huntouched, ?_, rfl⟩
  intro b hb
  unfold applyDelta
  by_cases hm : b.index ∈ FindDifferentBlocks src temp
  · simp only [hm, if_true]
    exact lastHash_of_mem hsrc hb
  · simp only [hm, if_false]
    exact huntouched b hb hm

/-- Witness for C5 at a concrete input: source blocks 0,1; temp file holds
block 0 correctly and block 1 differently; the engine transfers exactly
the diff against the temp file. -/
theorem copyFileDelta_correct_witness :
    ((([⟨0, "a", 5⟩, ⟨1, "b", 5⟩] : List FileBlock).map (·.index)).Nodup ∧
     (([⟨0, "a", 5⟩, ⟨1, "c", 5⟩] : List FileBlock).map (·.index)).Nodup) ∧
    copyFileDelta (some [⟨0, "a", 5⟩, ⟨1, "b", 5⟩])
        (some [⟨0, "a", 5⟩, ⟨1, "c", 5⟩]) =
      .transferred (FindDifferentBlocks [⟨0, "a", 5⟩, ⟨1, "b", 5⟩]
        [⟨0, "a", 5⟩, ⟨1, "c", 5⟩]) :=
  ⟨⟨by decide, by decide⟩,
    (copyFileDelta_correct [⟨0, "a", 5⟩, ⟨1, "b", 5⟩]
      [⟨0, "a", 5⟩, ⟨1, "c", 5⟩] (by decide)).1⟩

/-! ## Claim C9 -/

/-- C9: `Saferename` first attempts the direct rename; when the final
path is occupied and the direct rename fails, it displaces the existing
final file to a freshly generated unused temp name, renames the new file
into place and deletes the displaced original; if the installation rename
fails it best-effort restores the displaced original — leaving the
filesystem exactly as before — and reports the failure; a failed
displacement also reports failure with nothing changed. -/
theorem saferename_publish_policy (fs : String → Option Nat)
    (oldname newname : String) (gen : Nat → String) (fuel : Nat) (t : String)
    (hon : oldname ≠ newname)
    (hold : (fs oldname).isSome = true)
    (hnew : (fs newname).isSome = true)
    (hfresh : pickFresh fs gen fuel 0 = some t) :
    (∀ env : RenameEnv, env.direct = true →
      (Saferename fs oldname newname env gen fuel).ok = true ∧
      (Saferename fs oldname newname env gen fuel).fs newname = fs oldname ∧
      (Saferename fs oldname newname env gen fuel).fs oldname = none) ∧
    (∀ env : RenameEnv, env.direct = false → env.displace = true →
      env.install = true → env.removeOk = true →
      (Saferename fs oldname newname env gen fuel).ok = true ∧
      (Saferename fs oldname newname env gen fuel).fs newname = fs oldname ∧
      (Saferename fs oldname newname env gen fuel).fs oldname = none ∧
      (Saferename fs oldname newname env gen fuel).fs t = none) ∧
    (∀ env : RenameEnv, env.direct = false → env.displace = true →
      env.install = false → env.revert = true →
      (Saferename fs oldname newname env gen fuel).ok = false ∧
      ∀ p, (Saferename fs oldname newname env gen fuel).fs p = fs p) ∧
    (∀ env : RenameEnv, env.direct = false → env.displace = false →
      (Saferename fs oldname newname env gen fuel).ok = false ∧
      ∀ p, (Saferename fs oldname newname env gen fuel).fs p = fs p) := by
  have ht : fs t = none := pickFresh_fresh hfresh
  have hto : t ≠ oldname := by
    intro he
    rw [he] at ht
    rw [ht] at hold
    simp at hold
  have htn : t ≠ newname := by
    intro he
    rw [he] at ht
    rw [ht] at hnew
    simp at hnew
  have hot : oldname ≠ t := Ne.symm hto
  have hnt : newname ≠ t := Ne.symm htn
  have hno : newname ≠ oldname := Ne.symm hon
  refine ⟨?_, ?_, ?_, ?_⟩
  · intro env hd
    refine ⟨?_, ?_, ?_⟩ <;>
      simp [Saferename, hd, applyRename, hon, hno]
  · intro env hd hdisp hinst hrm
    refine ⟨?_, ?_, ?_, ?_⟩ <;>
      simp [Saferename, hd, hdisp, hinst, hrm, hfresh, applyRename, hon, hno,
        hto, htn, hot, hnt]
  · intro env hd hdisp hinst hrev
    refine ⟨?_, ?_⟩
    · simp [Saferename, hd, hdisp, hinst, hrev, hfresh]
    · intro p
      simp only [Saferename, hd, hdisp, hinst, hrev, hfresh, applyRename,
        Bool.false_eq_true, if_false, if_true]
      by_cases hpn : p = newname
      · simp [hpn, hnt]
      · by_cases hpt : p = t
        · simp [hpn, hpt, htn, ht.symm]
        · simp [hpn, hpt]
  · intro env hd hdisp
    refine ⟨?_, ?_⟩
    · simp [Saferename, hd, hdisp, hfresh]
    · intro p
      simp [Saferename, hd, hdisp, hfresh]

/-- Witness for C9 at a concrete input: a two-file filesystem; with the
direct rename succeeding, the publish succeeds and the final path holds
the temp file's content. -/
theorem saferename_publish_policy_witness :
    (("old" : String) ≠ "fin" ∧
     (((fun p => if p = "old" then some 1 else if p = "fin" then some 2
        else none) : String → Option Nat) "old").isSome = true ∧
     pickFresh (fun p => if p = "old" then some 1 else if p = "fin" then some 2
        else none) (fun _ => "t0") 1 0 = some "t0") ∧
    (Saferename (fun p => if p = "old" then some 1 else if p = "fin" then some 2
        else none) "old" "fin" ⟨true, true, true, true, true⟩
        (fun _ => "t0") 1).ok = true :=
  ⟨⟨by decide, by decide, by decide⟩,
    (saferename_publish_policy
      (fun p => if p = "old" then some 1 else if p = "fin" then some 2 else none)
      "old" "fin" (fun _ => "t0") 1 "t0" (by decide) (by decide) (by decide)
      (by decide)).1 ⟨true, true, true, true, true⟩ rfl |>.1⟩

end Gorsync
